import Mathlib

/-!
Shallow embedding of `xapian-extras/imgseek/src/image_terms.cc` and proofs about it.

The source file turns an image signature (three per-channel sets of wavelet
coefficient positions plus three per-channel average colour values) into
index terms and into a weighted similarity query.

Conventions of the embedding:
* C++ `std::string` becomes Lean `String`; `to_string` on `int` becomes `intStr`
  (decimal representation, leading `-` for negatives), built from a fuel-based
  digit function so that it reduces in the kernel.
* `double`/`float` values become `ℚ` (exact rationals standing for the real
  numbers the source means; floating point rounding is out of scope).
* `Xapian::Document` is a term list (kept in the sorted order in which a Xapian
  term list iterates) plus a total map from value slots to stored byte strings.
* Code of the repository that is not part of this file (the haar decomposition,
  `serialise-double`, `Xapian::RangeAccelerator`, the query engine) is modelled
  from the spec; each such definition carries a doc comment saying so.
-/

namespace ImgSeek

/-- Decimal digits of `n` in reverse order, fuel-bounded so the kernel can
reduce it; `digitsRevC fuel n` is correct whenever `n ≤ fuel`. -/
def digitsRevC : Nat → Nat → List Char
  | 0, _ => []
  | fuel + 1, n => if n = 0 then [] else Nat.digitChar (n % 10) :: digitsRevC fuel (n / 10)

/-- Decimal representation of a natural number as a list of characters,
most significant digit first (the output of `std::ostream << n`). -/
def natStr (n : Nat) : List Char :=
  if n = 0 then ['0'] else (digitsRevC n n).reverse

/-- Decimal representation of an `int` as streamed by `std::ostream`:
a minus sign followed by the digits for negative numbers. This embeds the
`to_string` helper of image_terms.cc (lines 43-48). -/
def intStr : Int → List Char
  | Int.ofNat n => natStr n
  | Int.negSucc n => '-' :: natStr (n + 1)

/-- String form of `to_string` from image_terms.cc applied to an `int`. -/
def to_string_int (x : Int) : String := ⟨intStr x⟩

/-- Lexicographic comparison of character lists (the order of `std::string`
`operator<` restricted to the ASCII terms this code builds). Written with an
`if` cascade on `Char` comparison so it reduces in the kernel. -/
def charsLt : List Char → List Char → Bool
  | _, [] => false
  | [], _ :: _ => true
  | a :: as, b :: bs => if a < b then true else if b < a then false else charsLt as bs

/-- Lexicographic `<` on strings, executable version used by the embedding of
the sorted Xapian term list. -/
def strLt (s t : String) : Bool := charsLt s.data t.data

/-- Embeds `startswith` from image_terms.cc (lines 141-144): whether `start`
is an initial segment of `s`. -/
def isPre : List Char → List Char → Bool
  | [], _ => true
  | _ :: _, [] => false
  | a :: as, b :: bs => a == b && isPre as bs

/-- The `startswith(s, start)` helper of image_terms.cc (lines 141-144):
`s.find(start) == 0`, i.e. `start` is a prefix of `s`. -/
def startswith (s start : String) : Bool := isPre start.data s.data

/-- A stored byte string in a document value slot. Modelled from the spec:
the serialization collaborator (serialise-double, outside this file) encodes a
scalar to a byte sequence; a slot is either unset (the empty string), a
well-formed encoding of a scalar, or a malformed byte sequence. -/
inductive ByteStr
  | empty : ByteStr
  | enc : ℚ → ByteStr
  | junk : Nat → ByteStr
deriving DecidableEq

/-- The Xapian error kinds this code touches: `Xapian::InvalidArgumentError`,
`Xapian::NetworkError` (thrown by `unserialise_double`), and a marker for the
undefined dereference of `weightmap.find(*it)` when the term is absent
(image_terms.cc line 159 reads `pos->second` without checking `pos`). -/
inductive XError
  | invalidArgument : String → XError
  | networkError : String → XError
  | endDeref : String → XError
deriving DecidableEq

/-- Modelled from the spec: `serialise_double` of the serialization
collaborator encodes a scalar verbatim into a byte string. -/
def serialise_double (v : ℚ) : ByteStr := ByteStr.enc v

/-- Modelled from the spec: `unserialise_double` of the serialization
collaborator decodes a byte string; decoding a malformed or empty byte
sequence fails with a `Xapian::NetworkError` whose message depends only on
the bytes (the decoder receives nothing but the byte range, see the call at
image_terms.cc line 185). -/
def unserialise_double : ByteStr → Except XError ℚ
  | ByteStr.enc v => Except.ok v
  | ByteStr.empty => Except.error (XError.networkError "Bad serialised double (insufficient data)")
  | ByteStr.junk _ => Except.error (XError.networkError "Bad serialised double (bad encoding)")

/-- Modelled from the spec: the per-channel Range Accelerator configuration of
`Xapian::RangeAccelerator` (outside this file): a term prefix, the value slot
holding the raw average, a domain `[vmin, vmax)` and a bucket width. -/
structure RangeAccelerator where
  pfx : String
  valno : Nat
  vmin : ℚ
  vmax : ℚ
  step : ℚ
deriving DecidableEq

instance : Inhabited RangeAccelerator := ⟨⟨"", 0, 0, 0, 0⟩⟩

/-- The fragment of the `Xapian::Query` algebra this code uses: the default
constructed (empty) query, a single-term query, `OP_SCALE_WEIGHT`, `OP_OR`,
and the opaque query returned by `RangeAccelerator::query_for_val_distance`
(modelled from the spec as a constructor recording the accelerator and the
anchor value). -/
inductive Query
  | empty : Query
  | term : String → Query
  | opScaleWeight : ℚ → Query → Query
  | opOr : Query → Query → Query
  | valDist : RangeAccelerator → ℚ → Query
deriving DecidableEq

/-- Modelled from the spec: `RangeAccelerator::query_for_val_distance` builds
a query over the accelerator's bucket terms anchored at `v`; the bucket math
is the accelerator's business, so the embedding keeps it opaque. -/
def query_for_val_distance (ra : RangeAccelerator) (v : ℚ) : Query := Query.valDist ra v

/-- A `Xapian::Document` as used by this code: the term list, kept in the
sorted order in which `termlist_begin` iterates, and the stored values
(`get_value` returns the empty byte string for an unset slot, so `values` is
total with `ByteStr.empty` as the default). -/
structure Document where
  terms : List String
  values : Nat → ByteStr

/-- Modelled from the spec: `Xapian::Document::add_term` adds a term to the
document's term set; the term list is a set, so inserting an existing term is
a no-op. The embedding inserts into the sorted term list. -/
def add_term (t : String) : List String → List String
  | [] => [t]
  | s :: rest =>
      if strLt t s then t :: s :: rest
      else if t = s then s :: rest
      else s :: add_term t rest

/-- Modelled from the spec: `RangeAccelerator::add_val(doc, value)` stores the
value verbatim (serialised) in the document's raw value slot (spec section
4.2: the discretizer does not lossily quantize on write). -/
def add_val (ra : RangeAccelerator) (doc : Document) (v : ℚ) : Document :=
  { doc with values := fun n => if n = ra.valno then serialise_double v else doc.values n }

/-- An image signature (`ImgSig`, declared in imgseek.h): three per-channel
collections of coefficient positions and the three per-channel averages
(`avgl[0..2]`). The coefficient collections are kept as lists so that
order-independence and duplicate handling can be stated. -/
structure ImgSig where
  sig1 : List Int
  sig2 : List Int
  sig3 : List Int
  avgl : List ℚ

/-- `ImgTerms::colourprefix(c)` (image_terms.cc lines 50-53):
`prefix + to_string(c)`. -/
def colourpfx (pfx : String) (c : Nat) : String := pfx ++ to_string_int (c : Int)

/-- `ImgTerms::make_coeff_term(x, c)` (image_terms.cc lines 55-58):
`colourprefix(c) + to_string(x)`. -/
def make_coeff_term (pfx : String) (x : Int) (c : Nat) : String :=
  colourpfx pfx c ++ to_string_int x

/-- `ImgTerms::make_weightmap()` (image_terms.cc lines 60-69): for every
position `x` in `[-N, N)` (`N` is `num_pixels_squared`, supplied by the haar
decomposition outside this file) and every channel `c` in `{0,1,2}`, bind the
term `make_coeff_term(x, c)` to `find_weight(x, c)`. `find_weight` lives in
the haar code outside this file, so it is a parameter `fw` here. The C++
`WeightMap` is a `std::map`; since the keys are pairwise distinct the
association list with first-match lookup is a faithful model. -/
def make_weightmap (pfx : String) (N : Nat) (fw : Int → Nat → ℚ) : List (String × ℚ) :=
  ((List.range (2 * N)).map (fun i : Nat =>
    (List.range 3).map (fun c : Nat =>
      (make_coeff_term pfx ((i : Int) - (N : Int)) c, fw ((i : Int) - (N : Int)) c)))).flatten

/-- The state of an `ImgTerms` object (imgseek.h): the configurable prefix,
the three value slot numbers, the weight map and the three per-channel range
accelerators. -/
structure ImgTerms where
  pfx : String
  colour_vals : List Nat
  weightmap : List (String × ℚ)
  colour_average_accels : List RangeAccelerator

/-- The `ImgTerms` constructor (image_terms.cc lines 79-110): record the
prefix, build the weight map eagerly, push the three value slots, and build
the three range accelerators with domains `[0,1)` for Y, `[-0.523, 0.523)`
for I and `[-0.596, 0.596)` for Q, each with bucket width `(max-min)/255`.
The decimal constants are written as exact fractions. -/
def imgTermsMk (pfx : String) (v1 v2 v3 : Nat) (N : Nat) (fw : Int → Nat → ℚ) : ImgTerms :=
  { pfx := pfx
    colour_vals := [v1, v2, v3]
    weightmap := make_weightmap pfx N fw
    colour_average_accels :=
      [⟨pfx ++ "A0", v1, 0, 1, (1 - 0) / 255⟩,
       ⟨pfx ++ "A1", v2, -523/1000, 523/1000, (523/1000 - (-523/1000)) / 255⟩,
       ⟨pfx ++ "A2", v3, -596/1000, 596/1000, (596/1000 - (-596/1000)) / 255⟩] }

/-- `ImgTerms::add_coeff_terms(s, c, r)` (image_terms.cc lines 112-117):
insert `make_coeff_term(x, c)` into the set `r` for every position `x` in
`s`. -/
def add_coeff_terms (pfx : String) (s : List Int) (c : Nat) (r : List String) : List String :=
  s.foldl (fun r x => add_term (make_coeff_term pfx x c) r) r

/-- `ImgTerms::make_coeff_terms(sig)` (image_terms.cc lines 119-126): the set
of coefficient terms of a signature, channels 0, 1, 2 in that order. The
result is a sorted duplicate-free list, which is how the C++
`std::set<std::string>` iterates. -/
def make_coeff_terms (pfx : String) (sig : ImgSig) : List String :=
  add_coeff_terms pfx sig.sig3 2 (add_coeff_terms pfx sig.sig2 1 (add_coeff_terms pfx sig.sig1 0 []))

/-- `ImgTerms::AddTerms(doc, sig)` (image_terms.cc lines 128-138): add every
coefficient term of the signature to the document, then for each channel `c`
store the raw average `sig.avgl[c]` through the channel's range
accelerator. -/
def AddTerms (it : ImgTerms) (doc : Document) (sig : ImgSig) : Document :=
  let terms := make_coeff_terms it.pfx sig
  let doc0 : Document := { doc with terms := terms.foldl (fun acc t => add_term t acc) doc.terms }
  let doc1 := add_val (it.colour_average_accels.getD 0 default) doc0 (sig.avgl.getD 0 0)
  let doc2 := add_val (it.colour_average_accels.getD 1 default) doc1 (sig.avgl.getD 1 0)
  add_val (it.colour_average_accels.getD 2 default) doc2 (sig.avgl.getD 2 0)

/-- The prefix-scoped scan of `make_coeff_query` (image_terms.cc lines
151-154): `skip_to(cprefix)` positions the iterator at the first term not
below `cprefix`, then terms are consumed while they start with `cprefix`. -/
def scanChannel (terms : List String) (cpfx : String) : List String :=
  (terms.dropWhile (fun t => strLt t cpfx)).takeWhile (fun t => startswith t cpfx)

/-- The loop body chain of `make_coeff_query` (image_terms.cc lines 154-164)
over one channel's scanned terms: each term becomes a single-term query,
scaled by `weightmap.find(*it)->second`, and is OR-ed onto the accumulated
query. The C++ dereferences the `find` result without checking it; a missing
key is therefore undefined behaviour, modelled as the `endDeref` error. -/
def coeff_fold (wm : List (String × ℚ)) : Query → List String → Except XError Query
  | q, [] => Except.ok q
  | q, t :: ts =>
      match wm.lookup t with
      | none => Except.error (XError.endDeref t)
      | some w => coeff_fold wm (Query.opOr q (Query.opScaleWeight w (Query.term t))) ts

/-- `ImgTerms::make_coeff_query(doc)` (image_terms.cc lines 146-167): starting
from the default-constructed query, fold the scanned terms of channels 0, 1
and 2 in turn. -/
def make_coeff_query (it : ImgTerms) (doc : Document) : Except XError Query := do
  let q0 ← coeff_fold it.weightmap Query.empty (scanChannel doc.terms (colourpfx it.pfx 0))
  let q1 ← coeff_fold it.weightmap q0 (scanChannel doc.terms (colourpfx it.pfx 1))
  coeff_fold it.weightmap q1 (scanChannel doc.terms (colourpfx it.pfx 2))

/-- The `weights` table (image_terms.cc lines 32-40), rows indexed by bin,
columns by channel (Y, I, Q); the float literals are written as exact
fractions. -/
def weights : List (List ℚ) :=
  [[5, 1921/100, 3437/100],
   [83/100, 126/100, 36/100],
   [101/100, 44/100, 45/100],
   [52/100, 53/100, 14/100],
   [47/100, 28/100, 18/100],
   [30/100, 14/100, 27/100]]

/-- `weights[i][c]`. -/
def wAt (i c : Nat) : ℚ := (weights.getD i []).getD c 0

/-- One iteration of the `make_averages_query` loop (image_terms.cc lines
179-194) for channel `c`: read the stored value of the channel's slot,
deserialise it — catching `Xapian::NetworkError` and rethrowing it as
`Xapian::InvalidArgumentError` with the same message — and scale the
channel's value-distance query by `weights[0][c]`. -/
def avg_subquery (it : ImgTerms) (doc : Document) (c : Nat) : Except XError Query :=
  match unserialise_double (doc.values (it.colour_vals.getD c 0)) with
  | Except.error (XError.networkError m) => Except.error (XError.invalidArgument m)
  | Except.error e => Except.error e
  | Except.ok val =>
      Except.ok (Query.opScaleWeight (wAt 0 c)
        (query_for_val_distance (it.colour_average_accels.getD c default) val))

/-- `ImgTerms::make_averages_query(doc)` (image_terms.cc lines 176-197):
starting from the default-constructed query, OR on the scaled value-distance
subquery of channels 0, 1, 2 in turn; the first failing channel aborts the
loop by throwing. -/
def make_averages_query (it : ImgTerms) (doc : Document) : Except XError Query := do
  let s0 ← avg_subquery it doc 0
  let s1 ← avg_subquery it doc 1
  let s2 ← avg_subquery it doc 2
  pure (Query.opOr (Query.opOr (Query.opOr Query.empty s0) s1) s2)

/-- `ImgTerms::querySimilar(doc)` (image_terms.cc lines 169-174):
`OP_OR` of the coefficient query and the averages query; an exception from
either sub-builder propagates. -/
def querySimilar (it : ImgTerms) (doc : Document) : Except XError Query := do
  let qc ← make_coeff_query it doc
  let qa ← make_averages_query it doc
  pure (Query.opOr qc qa)

/-- Numeric value of a decimal digit character. -/
def charVal (c : Char) : Nat := c.toNat - 48

/-- Value of a little-endian digit list. -/
def valLE : List Char → Nat
  | [] => 0
  | c :: cs => charVal c + 10 * valLE cs

/-- Big-endian value function, a left inverse of `natStr`. -/
def natValBE (l : List Char) : Nat := valLE l.reverse

/-- The sortedness invariant of the embedding of Xapian term lists and of
`std::set<std::string>` iteration order. -/
def TermsSorted (l : List String) : Prop :=
  List.Pairwise (fun a b : String => strLt a b = true) l

/-! ### Decimal representation: correctness and injectivity -/

lemma charVal_digitChar : ∀ d, d < 10 → charVal (Nat.digitChar d) = d := by decide

lemma valLE_digitsRevC : ∀ fuel n, n ≤ fuel → valLE (digitsRevC fuel n) = n := by
  intro fuel
  induction fuel with
  | zero => intro n hn; interval_cases n; rfl
  | succ f ih =>
    intro n hn
    by_cases h0 : n = 0
    · subst h0; simp [digitsRevC, valLE]
    · have hlt : n / 10 < n := Nat.div_lt_self (by omega) (by norm_num)
      have hdiv : n / 10 ≤ f := by omega
      simp only [digitsRevC, h0, if_false, valLE]
      rw [ih _ hdiv, charVal_digitChar _ (Nat.mod_lt _ (by norm_num))]
      omega

lemma natValBE_natStr (n : Nat) : natValBE (natStr n) = n := by
  by_cases h0 : n = 0
  · subst h0; rfl
  · simp only [natStr, h0, if_false, natValBE, List.reverse_reverse]
    exact valLE_digitsRevC n n le_rfl

lemma natStr_inj {m n : Nat} (h : natStr m = natStr n) : m = n := by
  rw [← natValBE_natStr m, h, natValBE_natStr]

lemma natStr_ne_nil (n : Nat) : natStr n ≠ [] := by
  cases n with
  | zero => simp [natStr]
  | succ k => simp [natStr, digitsRevC]

lemma mem_digitsRevC {c : Char} : ∀ {f n : Nat}, c ∈ digitsRevC f n → ∃ d, d < 10 ∧ c = Nat.digitChar d := by
  intro f
  induction f with
  | zero => intro n h; simp [digitsRevC] at h
  | succ f ih =>
    intro n h
    by_cases h0 : n = 0
    · simp [digitsRevC, h0] at h
    · simp only [digitsRevC, h0, if_false, List.mem_cons] at h
      rcases h with h | h
      · exact ⟨n % 10, Nat.mod_lt _ (by norm_num), h⟩
      · exact ih h

lemma digitChar_ne_minus : ∀ d, d < 10 → Nat.digitChar d ≠ '-' := by decide

lemma natStr_no_minus {n : Nat} {c : Char} (h : c ∈ natStr n) : c ≠ '-' := by
  by_cases h0 : n = 0
  · subst h0
    rw [show natStr 0 = ['0'] from rfl, List.mem_singleton] at h
    subst h; decide
  · simp only [natStr, h0, if_false, List.mem_reverse] at h
    obtain ⟨d, hd, rfl⟩ := mem_digitsRevC h
    exact digitChar_ne_minus d hd

lemma intStr_inj : ∀ {a b : Int}, intStr a = intStr b → a = b := by
  intro a b h
  cases a with
  | ofNat m =>
    cases b with
    | ofNat n => simp only [intStr] at h; exact congrArg Int.ofNat (natStr_inj h)
    | negSucc n =>
      simp only [intStr] at h
      have : '-' ∈ natStr m := by rw [h]; exact List.mem_cons_self _ _
      exact absurd rfl (natStr_no_minus this)
  | negSucc m =>
    cases b with
    | ofNat n =>
      simp only [intStr] at h
      have : '-' ∈ natStr n := by rw [← h]; exact List.mem_cons_self _ _
      exact absurd rfl (natStr_no_minus this)
    | negSucc n =>
      simp only [intStr, List.cons.injEq] at h
      rw [Nat.succ_injective (natStr_inj h.2)]

/-! ### Term string structure -/

lemma str_ext {s t : String} (h : s.data = t.data) : s = t := congrArg String.mk h

lemma natStr_digit {c : Nat} (hc : c < 3) : natStr c = [Nat.digitChar c] := by
  interval_cases c <;> decide

lemma intStr_ofNat (c : Nat) : intStr (c : Int) = natStr c := rfl

lemma colourpfx_data (pfx : String) {c : Nat} (hc : c < 3) :
    (colourpfx pfx c).data = pfx.data ++ [Nat.digitChar c] := by
  simp only [colourpfx, to_string_int, String.data_append, intStr_ofNat, natStr_digit hc]

lemma make_coeff_term_data (pfx : String) (x : Int) {c : Nat} (hc : c < 3) :
    (make_coeff_term pfx x c).data = pfx.data ++ (Nat.digitChar c :: intStr x) := by
  simp only [make_coeff_term, to_string_int, String.data_append, colourpfx_data pfx hc]
  simp

lemma digitChar_inj3 {c d : Nat} (hc : c < 3) (hd : d < 3)
    (h : Nat.digitChar c = Nat.digitChar d) : c = d := by
  interval_cases c <;> interval_cases d <;> simp_all <;> revert h <;> decide

lemma make_coeff_term_inj {pfx : String} {x y : Int} {c d : Nat} (hc : c < 3) (hd : d < 3)
    (h : make_coeff_term pfx x c = make_coeff_term pfx y d) : c = d ∧ x = y := by
  have h2 := congrArg String.data h
  rw [make_coeff_term_data pfx x hc, make_coeff_term_data pfx y hd] at h2
  have h3 := List.append_cancel_left h2
  rw [List.cons.injEq] at h3
  exact ⟨digitChar_inj3 hc hd h3.1, intStr_inj h3.2⟩

lemma colourpfx_ne {pfx : String} {c d : Nat} (hc : c < 3) (hd : d < 3) (hne : c ≠ d) :
    colourpfx pfx c ≠ colourpfx pfx d := by
  intro h
  have h2 := congrArg String.data h
  rw [colourpfx_data pfx hc, colourpfx_data pfx hd] at h2
  have h3 := List.append_cancel_left h2
  rw [List.cons.injEq] at h3
  exact hne (digitChar_inj3 hc hd h3.1)

lemma colourpfx_not_pre {pfx : String} {c d : Nat} (hc : c < 3) (hd : d < 3) (hne : c ≠ d)
    (s : String) : colourpfx pfx d ≠ colourpfx pfx c ++ s := by
  intro h
  have h2 := congrArg String.data h
  rw [String.data_append, colourpfx_data pfx hd, colourpfx_data pfx hc,
    List.append_assoc] at h2
  have h3 := List.append_cancel_left h2
  rw [List.singleton_append, List.cons.injEq] at h3
  exact hne ((digitChar_inj3 hd hc h3.1).symm)

/-! ### Weight map structure -/

lemma mem_make_weightmap {pfx : String} {N : Nat} {fw : Int → Nat → ℚ} {p : String × ℚ} :
    p ∈ make_weightmap pfx N fw ↔
      ∃ i, i < 2 * N ∧ ∃ c, c < 3 ∧
        p = (make_coeff_term pfx ((i : Int) - (N : Int)) c, fw ((i : Int) - (N : Int)) c) := by
  simp only [make_weightmap, List.mem_flatten, List.mem_map, List.mem_range]
  constructor
  · rintro ⟨l, ⟨i, hi, rfl⟩, hp⟩
    obtain ⟨c, hc, rfl⟩ := List.mem_map.mp hp
    exact ⟨i, hi, c, List.mem_range.mp hc, rfl⟩
  · rintro ⟨i, hi, c, hc, rfl⟩
    exact ⟨_, ⟨i, hi, rfl⟩, List.mem_map.mpr ⟨c, List.mem_range.mpr hc, rfl⟩⟩

lemma lookup_eq_of_mem_of_unique {l : List (String × ℚ)} {k : String} {v : ℚ}
    (hmem : (k, v) ∈ l) (huniq : ∀ w, (k, w) ∈ l → w = v) : l.lookup k = some v := by
  induction l with
  | nil => cases hmem
  | cons p rest ih =>
    obtain ⟨k1, v1⟩ := p
    by_cases hk : k = k1
    · subst hk
      have hv : v1 = v := huniq v1 (List.mem_cons_self _ _)
      subst hv
      simp [List.lookup]
    · have hk2 : (k == k1) = false := beq_false_of_ne hk
      simp only [List.lookup, hk2]
      have hmem2 : (k, v) ∈ rest := by
        rcases List.mem_cons.mp hmem with h | h
        · exact absurd (congrArg Prod.fst h) hk
        · exact h
      exact ih hmem2 (fun w hw => huniq w (List.mem_cons_of_mem _ hw))

lemma lookup_make_weightmap {pfx : String} {N : Nat} {fw : Int → Nat → ℚ} {x : Int} {c : Nat}
    (hx1 : -(N : Int) ≤ x) (hx2 : x < (N : Int)) (hc : c < 3) :
    (make_weightmap pfx N fw).lookup (make_coeff_term pfx x c) = some (fw x c) := by
  apply lookup_eq_of_mem_of_unique
  · rw [mem_make_weightmap]
    refine ⟨(x + N).toNat, by omega, c, hc, ?_⟩
    have hxi : (((x + N).toNat : Int)) - (N : Int) = x := by omega
    rw [hxi]
  · intro w hw
    rw [mem_make_weightmap] at hw
    obtain ⟨i, hi, c2, hc2, heq⟩ := hw
    rw [Prod.mk.injEq] at heq
    obtain ⟨hcc, hxx⟩ := make_coeff_term_inj hc hc2 heq.1
    rw [heq.2, ← hcc, ← hxx]

lemma make_weightmap_keys_nodup (pfx : String) (N : Nat) (fw : Int → Nat → ℚ) :
    ((make_weightmap pfx N fw).map Prod.fst).Nodup := by
  rw [make_weightmap, List.map_flatten, List.map_map, List.nodup_flatten]
  constructor
  · intro l hl
    obtain ⟨i, _, rfl⟩ := List.mem_map.mp hl
    simp only [Function.comp_apply, List.map_map]
    apply List.Nodup.map_on _ (List.nodup_range _)
    intro c1 hc1 c2 hc2 h
    exact (make_coeff_term_inj (List.mem_range.mp hc1) (List.mem_range.mp hc2) h).1
  · rw [List.pairwise_map]
    apply List.Pairwise.imp_of_mem ?_ (List.pairwise_lt_range _)
    intro i j _ _ hij
    simp only [Function.comp_apply, List.map_map]
    intro a hai haj
    obtain ⟨c1, hc1, rfl⟩ := List.mem_map.mp hai
    obtain ⟨c2, hc2, heq⟩ := List.mem_map.mp haj
    have h2 := make_coeff_term_inj (List.mem_range.mp hc2) (List.mem_range.mp hc1) heq
    omega

lemma make_weightmap_length (pfx : String) (N : Nat) (fw : Int → Nat → ℚ) :
    (make_weightmap pfx N fw).length = 2 * N * 3 := by
  rw [make_weightmap, List.length_flatten, List.map_map]
  have h : ∀ i ∈ List.range (2 * N),
      (List.length ∘ fun i : Nat => (List.range 3).map (fun c =>
        (make_coeff_term pfx ((i : Int) - (N : Int)) c, fw ((i : Int) - (N : Int)) c))) i = 3 := by
    intro i _; simp
  rw [List.map_congr_left h]
  simp [List.map_const', List.sum_replicate, smul_eq_mul]

/-! ### The lexicographic order used by the sorted term sets -/

lemma charsLt_irrefl : ∀ l : List Char, charsLt l l = false := by
  intro l
  induction l with
  | nil => rfl
  | cons a as ih => simp [charsLt, lt_irrefl, ih]

lemma charsLt_trans : ∀ (a b c : List Char),
    charsLt a b = true → charsLt b c = true → charsLt a c = true := by
  intro a
  induction a with
  | nil =>
    intro b c h1 h2
    cases c with
    | nil =>
      cases b with
      | nil => simp [charsLt] at h1
      | cons y ys => simp [charsLt] at h2
    | cons z zs => simp [charsLt]
  | cons x xs ih =>
    intro b c h1 h2
    cases b with
    | nil => simp [charsLt] at h1
    | cons y ys =>
      cases c with
      | nil => simp [charsLt] at h2
      | cons z zs =>
        simp only [charsLt] at h1 h2 ⊢
        by_cases hxy : x < y
        · by_cases hyz : y < z
          · simp [lt_trans hxy hyz]
          · by_cases hzy : z < y
            · simp [hyz, hzy] at h2
            · have : y = z := le_antisymm (not_lt.mp hzy) (not_lt.mp hyz)
              subst this
              simp [hxy]
        · by_cases hyx : y < x
          · simp [hxy, hyx] at h1
          · have : x = y := le_antisymm (not_lt.mp hyx) (not_lt.mp hxy)
            subst this
            by_cases hyz : x < z
            · simp [hyz]
            · by_cases hzy : z < x
              · simp [hyz, hzy] at h2
              · have : x = z := le_antisymm (not_lt.mp hzy) (not_lt.mp hyz)
                subst this
                simp only [lt_irrefl, if_false] at h1 h2 ⊢
                exact ih _ _ h1 h2

lemma charsLt_connex : ∀ (a b : List Char),
    charsLt a b = false → charsLt b a = false → a = b := by
  intro a
  induction a with
  | nil =>
    intro b h1 _
    cases b with
    | nil => rfl
    | cons y ys => simp [charsLt] at h1
  | cons x xs ih =>
    intro b h1 h2
    cases b with
    | nil => simp [charsLt] at h2
    | cons y ys =>
      simp only [charsLt] at h1 h2
      by_cases hxy : x < y
      · simp [hxy] at h1
      · by_cases hyx : y < x
        · simp [hyx, hxy] at h2
        · have hxyeq : x = y := le_antisymm (not_lt.mp hyx) (not_lt.mp hxy)
          subst hxyeq
          simp only [lt_irrefl, if_false] at h1 h2
          rw [ih _ h1 h2]

lemma charsLt_asymm {a b : List Char} (h1 : charsLt a b = true) : charsLt b a = false := by
  by_contra h
  have h2 : charsLt b a = true := by
    cases hba : charsLt b a with
    | false => exact absurd hba h
    | true => rfl
  have := charsLt_trans a b a h1 h2
  rw [charsLt_irrefl] at this
  exact Bool.noConfusion this

lemma strLt_irrefl (s : String) : strLt s s = false := charsLt_irrefl s.data

lemma strLt_trans {s t u : String} (h1 : strLt s t = true) (h2 : strLt t u = true) :
    strLt s u = true := charsLt_trans _ _ _ h1 h2

lemma strLt_asymm {s t : String} (h : strLt s t = true) : strLt t s = false := charsLt_asymm h

lemma strLt_connex {s t : String} (h1 : strLt s t = false) (h2 : strLt t s = false) : s = t :=
  str_ext (charsLt_connex _ _ h1 h2)

lemma strLt_ne {s t : String} (h : strLt s t = true) : s ≠ t := by
  intro heq; subst heq; rw [strLt_irrefl] at h; exact Bool.noConfusion h

lemma termsSorted_nil : TermsSorted [] := List.Pairwise.nil

lemma TermsSorted.nodup {l : List String} (h : TermsSorted l) : l.Nodup :=
  h.imp (fun hab => strLt_ne hab)

/-! ### Set-insertion (`add_term`) lemmas -/

lemma termsSorted_cons {a : String} {l : List String} :
    TermsSorted (a :: l) ↔ (∀ b ∈ l, strLt a b = true) ∧ TermsSorted l :=
  List.pairwise_cons

lemma mem_add_term {t a : String} : ∀ {l : List String}, a ∈ add_term t l ↔ a = t ∨ a ∈ l := by
  intro l
  induction l with
  | nil => simp [add_term]
  | cons s rest ih =>
    show a ∈ (if strLt t s then t :: s :: rest else if t = s then s :: rest
      else s :: add_term t rest) ↔ _
    by_cases h1 : strLt t s = true
    · rw [if_pos h1]; simp
    · rw [if_neg h1]
      by_cases h2 : t = s
      · subst h2
        rw [if_pos rfl]
        simp only [List.mem_cons]
        tauto
      · rw [if_neg h2]
        simp only [List.mem_cons, ih]
        tauto

lemma add_term_sorted {t : String} : ∀ {l : List String}, TermsSorted l →
    TermsSorted (add_term t l) := by
  intro l
  induction l with
  | nil => intro _; exact List.pairwise_singleton _ _
  | cons s rest ih =>
    intro h
    rw [termsSorted_cons] at h
    show TermsSorted (if strLt t s then t :: s :: rest else if t = s then s :: rest
      else s :: add_term t rest)
    by_cases h1 : strLt t s = true
    · rw [if_pos h1, termsSorted_cons, termsSorted_cons]
      refine ⟨?_, h.1, h.2⟩
      intro b hb
      rcases List.mem_cons.mp hb with rfl | hb2
      · exact h1
      · exact strLt_trans h1 (h.1 b hb2)
    · rw [if_neg h1]
      by_cases h2 : t = s
      · rw [if_pos h2, termsSorted_cons]
        exact ⟨h.1, h.2⟩
      · rw [if_neg h2, termsSorted_cons]
        refine ⟨?_, ih h.2⟩
        intro b hb
        rcases mem_add_term.mp hb with rfl | hb2
        · cases hts : strLt s b with
          | true => rfl
          | false => exact absurd (strLt_connex (Bool.eq_false_iff.mpr h1) hts) h2
        · exact h.1 b hb2

lemma add_term_of_mem {t : String} : ∀ {l : List String}, TermsSorted l → t ∈ l →
    add_term t l = l := by
  intro l
  induction l with
  | nil => intro _ h; cases h
  | cons s rest ih =>
    intro hs hm
    rw [termsSorted_cons] at hs
    rcases List.mem_cons.mp hm with rfl | hm2
    · show (if strLt t t then t :: t :: rest else if t = t then t :: rest
        else t :: add_term t rest) = t :: rest
      rw [if_neg (by rw [strLt_irrefl]; exact Bool.noConfusion), if_pos rfl]
    · have hst : strLt s t = true := hs.1 t hm2
      have h1 : ¬ strLt t s = true := by rw [strLt_asymm hst]; exact Bool.noConfusion
      have h2 : t ≠ s := fun heq => strLt_ne hst heq.symm
      show (if strLt t s then t :: s :: rest else if t = s then s :: rest
        else s :: add_term t rest) = s :: rest
      rw [if_neg h1, if_neg h2, ih hs.2 hm2]

lemma sorted_ext : ∀ {l1 l2 : List String}, TermsSorted l1 → TermsSorted l2 →
    (∀ a, a ∈ l1 ↔ a ∈ l2) → l1 = l2 := by
  intro l1
  induction l1 with
  | nil =>
    intro l2 _ _ hm
    cases l2 with
    | nil => rfl
    | cons b t2 => exact absurd ((hm b).mpr (List.mem_cons_self b t2)) (List.not_mem_nil b)
  | cons a t1 ih =>
    intro l2 hs1 hs2 hm
    cases l2 with
    | nil => exact absurd ((hm a).mp (List.mem_cons_self a t1)) (List.not_mem_nil a)
    | cons b t2 =>
      rw [termsSorted_cons] at hs1 hs2
      have hab : a = b := by
        rcases List.mem_cons.mp ((hm a).mp (List.mem_cons_self a t1)) with h | h
        · exact h
        · rcases List.mem_cons.mp ((hm b).mpr (List.mem_cons_self b t2)) with h2 | h2
          · exact h2.symm
          · have h3 := hs2.1 a h
            have h4 := hs1.1 b h2
            rw [strLt_asymm h4] at h3
            exact Bool.noConfusion h3
      subst hab
      have htails : ∀ x, x ∈ t1 ↔ x ∈ t2 := by
        intro x
        constructor
        · intro hx
          rcases List.mem_cons.mp ((hm x).mp (List.mem_cons_of_mem a hx)) with rfl | h
          · exact absurd (hs1.1 x hx) (fun hc => strLt_ne hc rfl)
          · exact h
        · intro hx
          rcases List.mem_cons.mp ((hm x).mpr (List.mem_cons_of_mem a hx)) with rfl | h
          · exact absurd (hs2.1 x hx) (fun hc => strLt_ne hc rfl)
          · exact h
      rw [ih hs1.2 hs2.2 htails]

/-! ### Folding insertions: coefficient term sets and document term lists -/

lemma mem_foldl_add_term : ∀ (ts l : List String) (a : String),
    a ∈ ts.foldl (fun acc t => add_term t acc) l ↔ a ∈ ts ∨ a ∈ l := by
  intro ts
  induction ts with
  | nil => simp
  | cons t rest ih =>
    intro l a
    rw [List.foldl_cons, ih, mem_add_term, List.mem_cons]
    tauto

lemma foldl_add_term_sorted : ∀ (ts l : List String), TermsSorted l →
    TermsSorted (ts.foldl (fun acc t => add_term t acc) l) := by
  intro ts
  induction ts with
  | nil => exact fun l h => h
  | cons t rest ih => exact fun l h => ih _ (add_term_sorted h)

lemma foldl_add_term_of_subset : ∀ (ts l : List String), TermsSorted l →
    (∀ t ∈ ts, t ∈ l) → ts.foldl (fun acc t => add_term t acc) l = l := by
  intro ts
  induction ts with
  | nil => intro l _ _; rfl
  | cons t rest ih =>
    intro l hs hsub
    rw [List.foldl_cons, add_term_of_mem hs (hsub t (List.mem_cons_self _ _))]
    exact ih l hs (fun u hu => hsub u (List.mem_cons_of_mem _ hu))

lemma mem_add_coeff_terms {pfx : String} {c : Nat} : ∀ (s : List Int) (r : List String)
    (a : String), a ∈ add_coeff_terms pfx s c r ↔
      (∃ x, x ∈ s ∧ a = make_coeff_term pfx x c) ∨ a ∈ r := by
  intro s
  induction s with
  | nil => simp [add_coeff_terms]
  | cons x rest ih =>
    intro r a
    rw [add_coeff_terms, List.foldl_cons]
    rw [show List.foldl (fun r x => add_term (make_coeff_term pfx x c) r)
      (add_term (make_coeff_term pfx x c) r) rest =
      add_coeff_terms pfx rest c (add_term (make_coeff_term pfx x c) r) from rfl]
    rw [ih, mem_add_term]
    constructor
    · rintro (⟨y, hy, rfl⟩ | h | h)
      · exact Or.inl ⟨y, List.mem_cons_of_mem _ hy, rfl⟩
      · exact Or.inl ⟨x, List.mem_cons_self _ _, h⟩
      · exact Or.inr h
    · rintro (⟨y, hy, rfl⟩ | h)
      · rcases List.mem_cons.mp hy with rfl | hy2
        · exact Or.inr (Or.inl rfl)
        · exact Or.inl ⟨y, hy2, rfl⟩
      · exact Or.inr (Or.inr h)

lemma add_coeff_terms_sorted {pfx : String} {c : Nat} (s : List Int) (r : List String)
    (h : TermsSorted r) : TermsSorted (add_coeff_terms pfx s c r) := by
  induction s generalizing r with
  | nil => exact h
  | cons x rest ih => exact ih _ (add_term_sorted h)

lemma make_coeff_terms_sorted (pfx : String) (sig : ImgSig) :
    TermsSorted (make_coeff_terms pfx sig) :=
  add_coeff_terms_sorted _ _ (add_coeff_terms_sorted _ _ (add_coeff_terms_sorted _ _ termsSorted_nil))

lemma mem_make_coeff_terms {pfx : String} {sig : ImgSig} {a : String} :
    a ∈ make_coeff_terms pfx sig ↔
      (∃ x, x ∈ sig.sig3 ∧ a = make_coeff_term pfx x 2) ∨
      (∃ x, x ∈ sig.sig2 ∧ a = make_coeff_term pfx x 1) ∨
      (∃ x, x ∈ sig.sig1 ∧ a = make_coeff_term pfx x 0) := by
  rw [make_coeff_terms, mem_add_coeff_terms, mem_add_coeff_terms, mem_add_coeff_terms]
  simp only [List.not_mem_nil, or_false]

/-- Two documents with the same term list and the same stored values are
equal. -/
lemma document_ext {d1 d2 : Document} (h1 : d1.terms = d2.terms)
    (h2 : d1.values = d2.values) : d1 = d2 := by
  cases d1
  cases d2
  simp only at h1 h2
  rw [h1, h2]

/-! ### Prefix-scoped scan lemmas -/

lemma mem_scanChannel {terms : List String} {cpfx t : String} (h : t ∈ scanChannel terms cpfx) :
    t ∈ terms ∧ startswith t cpfx = true := by
  have h2 : t ∈ (terms.dropWhile (fun u => strLt u cpfx)).takeWhile
      (fun u => startswith u cpfx) := h
  refine ⟨?_, ?_⟩
  · exact (List.dropWhile_sublist _).subset ((List.takeWhile_sublist _).subset h2)
  · exact List.mem_takeWhile_imp (p := fun u => startswith u cpfx) h2

lemma scanChannel_eq_nil {terms : List String} {cpfx : String}
    (h : ∀ t ∈ terms, startswith t cpfx = false) : scanChannel terms cpfx = [] := by
  unfold scanChannel
  cases hd : List.dropWhile (fun t => strLt t cpfx) terms with
  | nil => rfl
  | cons s rest =>
    have hs : s ∈ terms := by
      apply (List.dropWhile_sublist (fun t => strLt t cpfx)).subset
      rw [hd]
      exact List.mem_cons_self s rest
    rw [List.takeWhile_cons, h s hs]
    simp

/-! ### Coefficient query fold lemmas -/

lemma coeff_fold_ok {wm : List (String × ℚ)} : ∀ {ts : List String} {q : Query},
    (∀ t ∈ ts, wm.lookup t ≠ none) → ∃ r, coeff_fold wm q ts = Except.ok r := by
  intro ts
  induction ts with
  | nil => intro q _; exact ⟨q, rfl⟩
  | cons t rest ih =>
    intro q h
    cases hl : wm.lookup t with
    | none => exact absurd hl (h t (List.mem_cons_self _ _))
    | some w =>
      obtain ⟨r, hr⟩ := ih (q := Query.opOr q (Query.opScaleWeight w (Query.term t)))
        (fun u hu => h u (List.mem_cons_of_mem _ hu))
      exact ⟨r, by rw [coeff_fold, hl]; exact hr⟩

lemma make_coeff_query_ok {it : ImgTerms} {doc : Document}
    (h : ∀ c, c < 3 → ∀ t ∈ scanChannel doc.terms (colourpfx it.pfx c),
      it.weightmap.lookup t ≠ none) :
    ∃ q, make_coeff_query it doc = Except.ok q := by
  obtain ⟨q0, h0⟩ := @coeff_fold_ok it.weightmap _ Query.empty (h 0 (by norm_num))
  obtain ⟨q1, h1⟩ := @coeff_fold_ok it.weightmap _ q0 (h 1 (by norm_num))
  obtain ⟨q2, h2⟩ := @coeff_fold_ok it.weightmap _ q1 (h 2 (by norm_num))
  refine ⟨q2, ?_⟩
  rw [make_coeff_query]
  show (coeff_fold it.weightmap Query.empty (scanChannel doc.terms (colourpfx it.pfx 0))).bind _
    = Except.ok q2
  rw [h0]
  show (coeff_fold it.weightmap q0 (scanChannel doc.terms (colourpfx it.pfx 1))).bind _
    = Except.ok q2
  rw [h1]
  exact h2

/-! ### Bucket partition lemma for the range accelerators -/

lemma bucket_exists_unique {vmin w q : ℚ} (hw : 0 < w) (h1 : vmin ≤ q)
    (h2 : q < vmin + 255 * w) :
    ∃! k : Nat, k < 255 ∧ vmin + (k : ℚ) * w ≤ q ∧ q < vmin + ((k : ℚ) + 1) * w := by
  have hwne : w ≠ 0 := ne_of_gt hw
  set r : ℚ := (q - vmin) / w with hrdef
  have hrw : r * w = q - vmin := div_mul_cancel₀ _ hwne
  have hr0 : 0 ≤ r := div_nonneg (by linarith) hw.le
  have hr255 : r < 255 := by
    rw [hrdef, div_lt_iff₀ hw]; linarith
  have hfl0 : 0 ≤ ⌊r⌋ := Int.floor_nonneg.mpr hr0
  have hfl255 : ⌊r⌋ < 255 := by
    have := Int.floor_le_floor hr255.le
    have h255 : (⌊r⌋ : ℚ) ≤ r := Int.floor_le r
    by_contra hcon
    push_neg at hcon
    have : (255 : ℚ) ≤ ⌊r⌋ := by exact_mod_cast hcon
    linarith
  refine ⟨(⌊r⌋).toNat, ⟨?_, ?_, ?_⟩, ?_⟩
  · omega
  · have hcast : ((⌊r⌋.toNat : ℚ)) = ((⌊r⌋ : ℚ)) := by
      have : ((⌊r⌋.toNat : ℤ)) = ⌊r⌋ := Int.toNat_of_nonneg hfl0
      exact_mod_cast this
    rw [hcast]
    have hle : (⌊r⌋ : ℚ) ≤ r := Int.floor_le r
    have : (⌊r⌋ : ℚ) * w ≤ r * w := mul_le_mul_of_nonneg_right hle hw.le
    linarith [hrw ▸ this]
  · have hcast : ((⌊r⌋.toNat : ℚ)) = ((⌊r⌋ : ℚ)) := by
      have : ((⌊r⌋.toNat : ℤ)) = ⌊r⌋ := Int.toNat_of_nonneg hfl0
      exact_mod_cast this
    rw [hcast]
    have hlt : r < (⌊r⌋ : ℚ) + 1 := Int.lt_floor_add_one r
    have : r * w < ((⌊r⌋ : ℚ) + 1) * w := mul_lt_mul_of_pos_right hlt hw
    linarith [hrw ▸ this]
  · intro k hk
    obtain ⟨hk255, hkl, hku⟩ := hk
    have hkr1 : (k : ℚ) ≤ r := by
      rw [hrdef, le_div_iff₀ hw]
      linarith
    have hkr2 : r < (k : ℚ) + 1 := by
      rw [hrdef, div_lt_iff₀ hw]
      linarith
    have hfloor : ⌊r⌋ = (k : ℤ) := by
      apply Int.floor_eq_iff.mpr
      constructor
      · exact_mod_cast hkr1
      · exact_mod_cast hkr2
    omega

/-! ### Averages query helper lemmas -/

lemma unserialise_cases (b : ByteStr) :
    (∃ v, unserialise_double b = Except.ok v) ∨
    (∃ m, unserialise_double b = Except.error (XError.networkError m)) := by
  cases b with
  | empty => exact Or.inr ⟨_, rfl⟩
  | enc v => exact Or.inl ⟨v, rfl⟩
  | junk k => exact Or.inr ⟨_, rfl⟩

lemma avg_subquery_err {it : ImgTerms} {doc : Document} {c : Nat} {m : String}
    (he : unserialise_double (doc.values (it.colour_vals.getD c 0)) =
      Except.error (XError.networkError m)) :
    avg_subquery it doc c = Except.error (XError.invalidArgument m) := by
  rw [avg_subquery, he]

lemma avg_subquery_ok {it : ImgTerms} {doc : Document} {c : Nat} {v : ℚ}
    (he : unserialise_double (doc.values (it.colour_vals.getD c 0)) = Except.ok v) :
    avg_subquery it doc c = Except.ok (Query.opScaleWeight (wAt 0 c)
      (query_for_val_distance (it.colour_average_accels.getD c default) v)) := by
  rw [avg_subquery, he]

lemma make_averages_query_eq_ok {it : ImgTerms} {doc : Document} {s0 s1 s2 : Query}
    (h0 : avg_subquery it doc 0 = Except.ok s0)
    (h1 : avg_subquery it doc 1 = Except.ok s1)
    (h2 : avg_subquery it doc 2 = Except.ok s2) :
    make_averages_query it doc =
      Except.ok (Query.opOr (Query.opOr (Query.opOr Query.empty s0) s1) s2) := by
  rw [make_averages_query]
  show (avg_subquery it doc 0).bind _ = _
  rw [h0]
  show (avg_subquery it doc 1).bind _ = _
  rw [h1]
  show (avg_subquery it doc 2).bind _ = _
  rw [h2]
  rfl

lemma make_averages_query_err0 {it : ImgTerms} {doc : Document} {e : XError}
    (h0 : avg_subquery it doc 0 = Except.error e) :
    make_averages_query it doc = Except.error e := by
  rw [make_averages_query]
  show (avg_subquery it doc 0).bind _ = _
  rw [h0]
  rfl

lemma make_averages_query_err1 {it : ImgTerms} {doc : Document} {q0 : Query} {e : XError}
    (h0 : avg_subquery it doc 0 = Except.ok q0)
    (h1 : avg_subquery it doc 1 = Except.error e) :
    make_averages_query it doc = Except.error e := by
  rw [make_averages_query]
  show (avg_subquery it doc 0).bind _ = _
  rw [h0]
  show (avg_subquery it doc 1).bind _ = _
  rw [h1]
  rfl

lemma make_averages_query_err2 {it : ImgTerms} {doc : Document} {q0 q1 : Query} {e : XError}
    (h0 : avg_subquery it doc 0 = Except.ok q0)
    (h1 : avg_subquery it doc 1 = Except.ok q1)
    (h2 : avg_subquery it doc 2 = Except.error e) :
    make_averages_query it doc = Except.error e := by
  rw [make_averages_query]
  show (avg_subquery it doc 0).bind _ = _
  rw [h0]
  show (avg_subquery it doc 1).bind _ = _
  rw [h1]
  show (avg_subquery it doc 2).bind _ = _
  rw [h2]
  rfl

lemma querySimilar_of_parts {it : ImgTerms} {doc : Document} {qc qa : Query}
    (hc : make_coeff_query it doc = Except.ok qc)
    (ha : make_averages_query it doc = Except.ok qa) :
    querySimilar it doc = Except.ok (Query.opOr qc qa) := by
  rw [querySimilar]
  show (make_coeff_query it doc).bind _ = _
  rw [hc]
  show (make_averages_query it doc).bind _ = _
  rw [ha]
  rfl

lemma querySimilar_of_avg_err {it : ImgTerms} {doc : Document} {qc : Query} {e : XError}
    (hc : make_coeff_query it doc = Except.ok qc)
    (ha : make_averages_query it doc = Except.error e) :
    querySimilar it doc = Except.error e := by
  rw [querySimilar]
  show (make_coeff_query it doc).bind _ = _
  rw [hc]
  show (make_averages_query it doc).bind _ = _
  rw [ha]
  rfl

/-! ### Claim theorems -/

/-- Claim C3: construction of the weight map enumerates every pair
`(position, channel)` with position in `[-N, N)` and channel in `{0,1,2}`
exactly once (the key list is duplicate-free and has exactly `2N * 3`
entries), assigns each pair the weight returned by the external weight
function `fw` (`find_weight`, outside this file), and — under the spec
contract that the external weight function is non-negative — the weight of
every valid pair is defined (lookup succeeds) and non-negative. -/
theorem C3_weightmap_complete (pfx : String) (N : Nat) (fw : Int → Nat → ℚ)
    (hfw : ∀ y d, 0 ≤ fw y d) (x : Int) (c : Nat)
    (hx1 : -(N : Int) ≤ x) (hx2 : x < (N : Int)) (hc : c < 3) :
    ((make_weightmap pfx N fw).map Prod.fst).Nodup ∧
    (make_weightmap pfx N fw).length = 2 * N * 3 ∧
    (make_weightmap pfx N fw).lookup (make_coeff_term pfx x c) = some (fw x c) ∧
    0 ≤ fw x c :=
  ⟨make_weightmap_keys_nodup pfx N fw, make_weightmap_length pfx N fw,
   lookup_make_weightmap hx1 hx2 hc, hfw x c⟩

/-- Witness for C3 at `pfx = "P"`, `N = 1`, the constant weight function `1`,
position `0`, channel `1`. -/
theorem C3_weightmap_complete_witness :
    ((make_weightmap "P" 1 (fun _ _ => 1)).map Prod.fst).Nodup ∧
    (make_weightmap "P" 1 (fun _ _ => 1)).length = 2 * 1 * 3 ∧
    (make_weightmap "P" 1 (fun _ _ => 1)).lookup (make_coeff_term "P" 0 1) = some 1 ∧
    (0 : ℚ) ≤ 1 :=
  C3_weightmap_complete "P" 1 (fun _ _ => 1) (fun _ _ => zero_le_one) 0 1
    (by decide) (by decide) (by decide)

/-- Claim C2: if every channel-prefixed term of the document has the shape
produced by `AddTerms` from a signature whose coefficient positions lie in
`[-N, N)`, then every term produced by the prefix-scoped scan of
`make_coeff_query` has an entry in the weight map (the `find` result is not
the end iterator), and `make_coeff_query` runs to completion without ever
reaching the unchecked-dereference situation. -/
theorem C2_weightmap_lookup_safe (pfx : String) (v1 v2 v3 N : Nat) (fw : Int → Nat → ℚ)
    (doc : Document)
    (hdoc : ∀ t ∈ doc.terms, (∃ c, c < 3 ∧ startswith t (colourpfx pfx c) = true) →
      ∃ x c, c < 3 ∧ -(N : Int) ≤ x ∧ x < (N : Int) ∧ t = make_coeff_term pfx x c) :
    (∀ c, c < 3 → ∀ t ∈ scanChannel doc.terms (colourpfx pfx c),
      (imgTermsMk pfx v1 v2 v3 N fw).weightmap.lookup t ≠ none) ∧
    ∃ q, make_coeff_query (imgTermsMk pfx v1 v2 v3 N fw) doc = Except.ok q := by
  have hscan : ∀ c, c < 3 → ∀ t ∈ scanChannel doc.terms (colourpfx pfx c),
      (make_weightmap pfx N fw).lookup t ≠ none := by
    intro c hc t ht
    obtain ⟨htm, hsw⟩ := mem_scanChannel ht
    obtain ⟨x, c2, hc2, hx1, hx2, rfl⟩ := hdoc t htm ⟨c, hc, hsw⟩
    rw [lookup_make_weightmap hx1 hx2 hc2]
    simp
  exact ⟨hscan, @make_coeff_query_ok (imgTermsMk pfx v1 v2 v3 N fw) doc hscan⟩

/-- Witness for C2: a document holding the single term `"P00"`, which is the
channel-0 term of position `0` for `N = 1`. -/
theorem C2_weightmap_lookup_safe_witness :
    (∀ c, c < 3 → ∀ t ∈ scanChannel (Document.mk ["P00"] (fun _ => ByteStr.empty)).terms
        (colourpfx "P" c),
      (imgTermsMk "P" 0 1 2 1 (fun _ _ => 1)).weightmap.lookup t ≠ none) ∧
    ∃ q, make_coeff_query (imgTermsMk "P" 0 1 2 1 (fun _ _ => 1))
      (Document.mk ["P00"] (fun _ => ByteStr.empty)) = Except.ok q :=
  C2_weightmap_lookup_safe "P" 0 1 2 1 (fun _ _ => 1)
    (Document.mk ["P00"] (fun _ => ByteStr.empty))
    (fun t ht _ => by
      rw [List.mem_singleton] at ht
      subst ht
      exact ⟨0, 0, by decide, by decide, by decide, by decide⟩)

/-- Claim C4: for distinct channels the channel prefixes are distinct, no
channel prefix extends another channel's prefix (so it is not a string
prefix of it), and coefficient terms never collide across channels. -/
theorem C4_channel_separation (pfx : String) (c1 c2 : Nat) (hc1 : c1 < 3) (hc2 : c2 < 3)
    (hne : c1 ≠ c2) (p1 p2 : Int) (s : String) :
    colourpfx pfx c1 ≠ colourpfx pfx c2 ∧
    colourpfx pfx c2 ≠ colourpfx pfx c1 ++ s ∧
    make_coeff_term pfx p1 c1 ≠ make_coeff_term pfx p2 c2 := by
  refine ⟨colourpfx_ne hc1 hc2 hne, colourpfx_not_pre hc1 hc2 hne s, ?_⟩
  intro h
  exact hne (make_coeff_term_inj hc1 hc2 h).1

/-- Witness for C4 at `pfx = "P"`, channels `0` and `1`, positions `5` and
`-3`, continuation string `"7"` (so it also rules out `"P0" ++ "7" = "P1"`
style collisions). -/
theorem C4_channel_separation_witness :
    colourpfx "P" 0 ≠ colourpfx "P" 1 ∧
    colourpfx "P" 1 ≠ colourpfx "P" 0 ++ "7" ∧
    make_coeff_term "P" 5 0 ≠ make_coeff_term "P" (-3) 1 :=
  C4_channel_separation "P" 0 1 (by decide) (by decide) (by decide) 5 (-3) "7"

/-- Claim C5: when the three stored per-channel averages decode to `u0`,
`u1`, `u2`, the averages subquery scales each channel's value-distance query
by `weights[0][c]` — the DC weight of that channel, whose table values are
`5`, `19.21` and `34.37` — and combines the three scaled results (onto the
default-constructed query) with `OP_OR`. -/
theorem C5_averages_scaled_by_dc (pfx : String) (v1 v2 v3 N : Nat) (fw : Int → Nat → ℚ)
    (doc : Document) (u0 u1 u2 : ℚ)
    (h0 : doc.values v1 = ByteStr.enc u0)
    (h1 : doc.values v2 = ByteStr.enc u1)
    (h2 : doc.values v3 = ByteStr.enc u2) :
    wAt 0 0 = 5 ∧ wAt 0 1 = 1921/100 ∧ wAt 0 2 = 3437/100 ∧
    make_averages_query (imgTermsMk pfx v1 v2 v3 N fw) doc =
      Except.ok (Query.opOr (Query.opOr (Query.opOr Query.empty
        (Query.opScaleWeight (wAt 0 0) (query_for_val_distance
          ((imgTermsMk pfx v1 v2 v3 N fw).colour_average_accels.getD 0 default) u0)))
        (Query.opScaleWeight (wAt 0 1) (query_for_val_distance
          ((imgTermsMk pfx v1 v2 v3 N fw).colour_average_accels.getD 1 default) u1)))
        (Query.opScaleWeight (wAt 0 2) (query_for_val_distance
          ((imgTermsMk pfx v1 v2 v3 N fw).colour_average_accels.getD 2 default) u2))) := by
  refine ⟨rfl, rfl, rfl, ?_⟩
  have e0 : unserialise_double (doc.values
      ((imgTermsMk pfx v1 v2 v3 N fw).colour_vals.getD 0 0)) = Except.ok u0 := by
    show unserialise_double (doc.values v1) = Except.ok u0
    rw [h0]; rfl
  have e1 : unserialise_double (doc.values
      ((imgTermsMk pfx v1 v2 v3 N fw).colour_vals.getD 1 0)) = Except.ok u1 := by
    show unserialise_double (doc.values v2) = Except.ok u1
    rw [h1]; rfl
  have e2 : unserialise_double (doc.values
      ((imgTermsMk pfx v1 v2 v3 N fw).colour_vals.getD 2 0)) = Except.ok u2 := by
    show unserialise_double (doc.values v3) = Except.ok u2
    rw [h2]; rfl
  exact make_averages_query_eq_ok (avg_subquery_ok e0) (avg_subquery_ok e1)
    (avg_subquery_ok e2)

/-- Witness for C5 on a document storing encoded averages `1/2`, `0`,
`-1/10` in slots `0`, `1`, `2`. -/
theorem C5_averages_scaled_by_dc_witness :
    wAt 0 0 = 5 ∧ wAt 0 1 = 1921/100 ∧ wAt 0 2 = 3437/100 ∧
    make_averages_query (imgTermsMk "P" 0 1 2 1 (fun _ _ => 1))
      (Document.mk [] (fun n => if n = 0 then ByteStr.enc (1/2)
        else if n = 1 then ByteStr.enc 0 else ByteStr.enc (-1/10))) =
      Except.ok (Query.opOr (Query.opOr (Query.opOr Query.empty
        (Query.opScaleWeight (wAt 0 0) (query_for_val_distance
          ((imgTermsMk "P" 0 1 2 1 (fun _ _ => 1)).colour_average_accels.getD 0 default)
          (1/2))))
        (Query.opScaleWeight (wAt 0 1) (query_for_val_distance
          ((imgTermsMk "P" 0 1 2 1 (fun _ _ => 1)).colour_average_accels.getD 1 default) 0)))
        (Query.opScaleWeight (wAt 0 2) (query_for_val_distance
          ((imgTermsMk "P" 0 1 2 1 (fun _ _ => 1)).colour_average_accels.getD 2 default)
          (-1/10)))) :=
  C5_averages_scaled_by_dc "P" 0 1 2 1 (fun _ _ => 1)
    (Document.mk [] (fun n => if n = 0 then ByteStr.enc (1/2)
      else if n = 1 then ByteStr.enc 0 else ByteStr.enc (-1/10)))
    (1/2) 0 (-1/10) rfl rfl rfl

/-- Claim C1 (amended): if some channel's stored average field is missing or
malformed (its deserialisation fails), `make_averages_query` fails with an
invalid-argument error whose message is the translated decoder message of a
failing channel — it is not a transport-layer (`NetworkError`) failure and no
channel is silently dropped — and `querySimilar` propagates the same
invalid-argument error whenever the coefficient query itself succeeds.
(The counterexample theorem below shows that the error does not identify
which channel is at fault, which is why the claim is amended.) -/
theorem C1_invalid_argument_on_bad_field (pfx : String) (v1 v2 v3 N : Nat)
    (fw : Int → Nat → ℚ) (doc : Document)
    (h : ∃ c, c < 3 ∧ ∃ m, unserialise_double (doc.values
      ((imgTermsMk pfx v1 v2 v3 N fw).colour_vals.getD c 0)) =
        Except.error (XError.networkError m)) :
    ∃ m, make_averages_query (imgTermsMk pfx v1 v2 v3 N fw) doc =
        Except.error (XError.invalidArgument m) ∧
      (∃ c, c < 3 ∧ unserialise_double (doc.values
        ((imgTermsMk pfx v1 v2 v3 N fw).colour_vals.getD c 0)) =
          Except.error (XError.networkError m)) ∧
      (∀ qc, make_coeff_query (imgTermsMk pfx v1 v2 v3 N fw) doc = Except.ok qc →
        querySimilar (imgTermsMk pfx v1 v2 v3 N fw) doc =
          Except.error (XError.invalidArgument m)) := by
  rcases unserialise_cases (doc.values
      ((imgTermsMk pfx v1 v2 v3 N fw).colour_vals.getD 0 0)) with ⟨w0, hw0⟩ | ⟨m0, hm0⟩
  case inr =>
    have hq := make_averages_query_err0 (avg_subquery_err hm0)
    exact ⟨m0, hq, ⟨0, by norm_num, hm0⟩,
      fun qc hqc => querySimilar_of_avg_err hqc hq⟩
  case inl =>
    rcases unserialise_cases (doc.values
        ((imgTermsMk pfx v1 v2 v3 N fw).colour_vals.getD 1 0)) with ⟨w1, hw1⟩ | ⟨m1, hm1⟩
    case inr =>
      have hq := make_averages_query_err1 (avg_subquery_ok hw0) (avg_subquery_err hm1)
      exact ⟨m1, hq, ⟨1, by norm_num, hm1⟩,
        fun qc hqc => querySimilar_of_avg_err hqc hq⟩
    case inl =>
      rcases unserialise_cases (doc.values
          ((imgTermsMk pfx v1 v2 v3 N fw).colour_vals.getD 2 0)) with ⟨w2, hw2⟩ | ⟨m2, hm2⟩
      case inr =>
        have hq := make_averages_query_err2 (avg_subquery_ok hw0) (avg_subquery_ok hw1)
          (avg_subquery_err hm2)
        exact ⟨m2, hq, ⟨2, by norm_num, hm2⟩,
          fun qc hqc => querySimilar_of_avg_err hqc hq⟩
      case inl =>
        exfalso
        obtain ⟨c, hc, m, hm⟩ := h
        interval_cases c
        · rw [hw0] at hm; exact Except.noConfusion hm
        · rw [hw1] at hm; exact Except.noConfusion hm
        · rw [hw2] at hm; exact Except.noConfusion hm

/-- Witness for C1 (amended): slot 1 of the document holds a malformed byte
string, so channel 1 fails to decode. -/
theorem C1_invalid_argument_on_bad_field_witness :
    ∃ m, make_averages_query (imgTermsMk "P" 0 1 2 1 (fun _ _ => 1))
        (Document.mk [] (fun n => if n = 1 then ByteStr.junk 0 else ByteStr.enc 0)) =
        Except.error (XError.invalidArgument m) ∧
      (∃ c, c < 3 ∧ unserialise_double ((Document.mk []
        (fun n => if n = 1 then ByteStr.junk 0 else ByteStr.enc 0)).values
        ((imgTermsMk "P" 0 1 2 1 (fun _ _ => 1)).colour_vals.getD c 0)) =
          Except.error (XError.networkError m)) ∧
      (∀ qc, make_coeff_query (imgTermsMk "P" 0 1 2 1 (fun _ _ => 1))
          (Document.mk [] (fun n => if n = 1 then ByteStr.junk 0 else ByteStr.enc 0)) =
            Except.ok qc →
        querySimilar (imgTermsMk "P" 0 1 2 1 (fun _ _ => 1))
          (Document.mk [] (fun n => if n = 1 then ByteStr.junk 0 else ByteStr.enc 0)) =
          Except.error (XError.invalidArgument m)) :=
  C1_invalid_argument_on_bad_field "P" 0 1 2 1 (fun _ _ => 1)
    (Document.mk [] (fun n => if n = 1 then ByteStr.junk 0 else ByteStr.enc 0))
    ⟨1, by decide, "Bad serialised double (bad encoding)", rfl⟩

/-- Claim C1 counterexample: the invalid-argument error raised for a
malformed stored field does not identify which channel is at fault. The
document `d1` decodes fine on channels 0 and 2 but is malformed on channel 1;
the document `d2` decodes fine on channels 0 and 1 but is malformed on
channel 2; `make_averages_query` returns the **same** invalid-argument error
for both (the message is produced by the decoder from the bytes alone, see
image_terms.cc lines 184-188, which rethrows `e.get_msg()` unchanged), so no
caller can recover the channel number from the failure. -/
theorem C1_error_does_not_name_channel :
    unserialise_double ((Document.mk [] (fun n => if n = 1 then ByteStr.junk 0
      else ByteStr.enc 0)).values 1) =
      Except.error (XError.networkError "Bad serialised double (bad encoding)") ∧
    unserialise_double ((Document.mk [] (fun n => if n = 1 then ByteStr.junk 0
      else ByteStr.enc 0)).values 2) = Except.ok 0 ∧
    unserialise_double ((Document.mk [] (fun n => if n = 2 then ByteStr.junk 0
      else ByteStr.enc 0)).values 1) = Except.ok 0 ∧
    unserialise_double ((Document.mk [] (fun n => if n = 2 then ByteStr.junk 0
      else ByteStr.enc 0)).values 2) =
      Except.error (XError.networkError "Bad serialised double (bad encoding)") ∧
    make_averages_query (imgTermsMk "P" 0 1 2 1 (fun _ _ => 1))
      (Document.mk [] (fun n => if n = 1 then ByteStr.junk 0 else ByteStr.enc 0)) =
      Except.error (XError.invalidArgument "Bad serialised double (bad encoding)") ∧
    make_averages_query (imgTermsMk "P" 0 1 2 1 (fun _ _ => 1))
      (Document.mk [] (fun n => if n = 2 then ByteStr.junk 0 else ByteStr.enc 0)) =
      Except.error (XError.invalidArgument "Bad serialised double (bad encoding)") :=
  ⟨rfl, rfl, rfl, rfl, rfl, rfl⟩

/-- Claim C6: indexing the signature with channel-0 coefficient positions
`{0, 5, -3}` and average `1/2`, channel-1 positions `{2}` and average `0`,
channel-2 positions `{}` and average `-1/10` into a fresh document appends
exactly the coefficient terms for positions `0, 5, -3` under the channel-0
prefix and `2` under the channel-1 prefix (no coefficient term for channel
2, no duplicates), and stores the three raw averages through the three
per-channel accelerators into slots `v1`, `v2`, `v3`. -/
theorem C6_end_to_end_indexing (pfx : String) (v1 v2 v3 N : Nat) (fw : Int → Nat → ℚ)
    (h12 : v1 ≠ v2) (h13 : v1 ≠ v3) (h23 : v2 ≠ v3) :
    (∀ t, t ∈ (AddTerms (imgTermsMk pfx v1 v2 v3 N fw)
        (Document.mk [] (fun _ => ByteStr.empty))
        (ImgSig.mk [0, 5, -3] [2] [] [1/2, 0, -1/10])).terms ↔
      t ∈ [make_coeff_term pfx 0 0, make_coeff_term pfx 5 0,
        make_coeff_term pfx (-3) 0, make_coeff_term pfx 2 1]) ∧
    (AddTerms (imgTermsMk pfx v1 v2 v3 N fw) (Document.mk [] (fun _ => ByteStr.empty))
      (ImgSig.mk [0, 5, -3] [2] [] [1/2, 0, -1/10])).terms.Nodup ∧
    (AddTerms (imgTermsMk pfx v1 v2 v3 N fw) (Document.mk [] (fun _ => ByteStr.empty))
      (ImgSig.mk [0, 5, -3] [2] [] [1/2, 0, -1/10])).values v1 = ByteStr.enc (1/2) ∧
    (AddTerms (imgTermsMk pfx v1 v2 v3 N fw) (Document.mk [] (fun _ => ByteStr.empty))
      (ImgSig.mk [0, 5, -3] [2] [] [1/2, 0, -1/10])).values v2 = ByteStr.enc 0 ∧
    (AddTerms (imgTermsMk pfx v1 v2 v3 N fw) (Document.mk [] (fun _ => ByteStr.empty))
      (ImgSig.mk [0, 5, -3] [2] [] [1/2, 0, -1/10])).values v3 = ByteStr.enc (-1/10) := by
  have hterms : (AddTerms (imgTermsMk pfx v1 v2 v3 N fw)
      (Document.mk [] (fun _ => ByteStr.empty))
      (ImgSig.mk [0, 5, -3] [2] [] [1/2, 0, -1/10])).terms =
      (make_coeff_terms pfx (ImgSig.mk [0, 5, -3] [2] [] [1/2, 0, -1/10])).foldl
        (fun acc t => add_term t acc) [] := rfl
  refine ⟨?_, ?_, ?_, ?_, ?_⟩
  · intro t
    rw [hterms, mem_foldl_add_term, mem_make_coeff_terms]
    simp only [List.mem_cons, List.not_mem_nil, List.mem_singleton, or_false, false_or]
    constructor
    · rintro (⟨x, hF, -⟩ | ⟨x, rfl, rfl⟩ | ⟨x, hx, rfl⟩)
      · exact hF.elim
      · tauto
      · rcases hx with rfl | rfl | rfl <;> tauto
    · rintro (rfl | rfl | rfl | rfl)
      · exact Or.inr (Or.inr ⟨0, Or.inl rfl, rfl⟩)
      · exact Or.inr (Or.inr ⟨5, Or.inr (Or.inl rfl), rfl⟩)
      · exact Or.inr (Or.inr ⟨-3, Or.inr (Or.inr rfl), rfl⟩)
      · exact Or.inr (Or.inl ⟨2, rfl, rfl⟩)
  · rw [hterms]
    exact (foldl_add_term_sorted _ [] termsSorted_nil).nodup
  · show (if v1 = v3 then serialise_double (-1/10) else if v1 = v2 then serialise_double 0
      else if v1 = v1 then serialise_double (1/2) else ByteStr.empty) = ByteStr.enc (1/2)
    rw [if_neg h13, if_neg h12, if_pos rfl]
    rfl
  · show (if v2 = v3 then serialise_double (-1/10) else if v2 = v2 then serialise_double 0
      else if v2 = v1 then serialise_double (1/2) else ByteStr.empty) = ByteStr.enc 0
    rw [if_neg h23, if_pos rfl]
    rfl
  · show (if v3 = v3 then serialise_double (-1/10) else if v3 = v2 then serialise_double 0
      else if v3 = v1 then serialise_double (1/2) else ByteStr.empty) = ByteStr.enc (-1/10)
    rw [if_pos rfl]
    rfl

/-- Witness for C6 at `pfx = "P"`, value slots `0, 1, 2`, `N = 1`, with the
membership property instantiated at the channel-0 term of position `5`. -/
theorem C6_end_to_end_indexing_witness :
    (make_coeff_term "P" 5 0 ∈ (AddTerms (imgTermsMk "P" 0 1 2 1 (fun _ _ => 1))
        (Document.mk [] (fun _ => ByteStr.empty))
        (ImgSig.mk [0, 5, -3] [2] [] [1/2, 0, -1/10])).terms ↔
      make_coeff_term "P" 5 0 ∈ [make_coeff_term "P" 0 0, make_coeff_term "P" 5 0,
        make_coeff_term "P" (-3) 0, make_coeff_term "P" 2 1]) ∧
    (AddTerms (imgTermsMk "P" 0 1 2 1 (fun _ _ => 1))
      (Document.mk [] (fun _ => ByteStr.empty))
      (ImgSig.mk [0, 5, -3] [2] [] [1/2, 0, -1/10])).terms.Nodup ∧
    (AddTerms (imgTermsMk "P" 0 1 2 1 (fun _ _ => 1))
      (Document.mk [] (fun _ => ByteStr.empty))
      (ImgSig.mk [0, 5, -3] [2] [] [1/2, 0, -1/10])).values 0 = ByteStr.enc (1/2) ∧
    (AddTerms (imgTermsMk "P" 0 1 2 1 (fun _ _ => 1))
      (Document.mk [] (fun _ => ByteStr.empty))
      (ImgSig.mk [0, 5, -3] [2] [] [1/2, 0, -1/10])).values 1 = ByteStr.enc 0 ∧
    (AddTerms (imgTermsMk "P" 0 1 2 1 (fun _ _ => 1))
      (Document.mk [] (fun _ => ByteStr.empty))
      (ImgSig.mk [0, 5, -3] [2] [] [1/2, 0, -1/10])).values 2 = ByteStr.enc (-1/10) := by
  obtain ⟨h1, h2, h3, h4, h5⟩ := C6_end_to_end_indexing "P" 0 1 2 1 (fun _ _ => 1)
    (by decide) (by decide) (by decide)
  exact ⟨h1 (make_coeff_term "P" 5 0), h2, h3, h4, h5⟩

/-- Claim C7: the coefficient term set is a set in the mathematical sense —
it depends only on the membership of the three coefficient collections (so it
is order-independent and duplicates contribute one term) — and indexing the
same signature twice into a document whose term list is sorted leaves the
document exactly as after the first indexing (no duplicate growth). -/
theorem C7_term_set_semantics :
    (∀ (pfx : String) (s1 s2 : ImgSig),
      (∀ y, y ∈ s1.sig1 ↔ y ∈ s2.sig1) →
      (∀ y, y ∈ s1.sig2 ↔ y ∈ s2.sig2) →
      (∀ y, y ∈ s1.sig3 ↔ y ∈ s2.sig3) →
      make_coeff_terms pfx s1 = make_coeff_terms pfx s2) ∧
    (∀ (pfx : String) (v1 v2 v3 N : Nat) (fw : Int → Nat → ℚ) (doc : Document)
      (sig : ImgSig), TermsSorted doc.terms →
      AddTerms (imgTermsMk pfx v1 v2 v3 N fw)
        (AddTerms (imgTermsMk pfx v1 v2 v3 N fw) doc sig) sig =
      AddTerms (imgTermsMk pfx v1 v2 v3 N fw) doc sig) := by
  constructor
  · intro pfx s1 s2 h1 h2 h3
    apply sorted_ext (make_coeff_terms_sorted pfx s1) (make_coeff_terms_sorted pfx s2)
    intro a
    rw [mem_make_coeff_terms, mem_make_coeff_terms]
    simp only [h1, h2, h3]
  · intro pfx v1 v2 v3 N fw doc sig hsort
    apply document_ext
    · show (make_coeff_terms pfx sig).foldl (fun acc t => add_term t acc)
        ((make_coeff_terms pfx sig).foldl (fun acc t => add_term t acc) doc.terms) =
        (make_coeff_terms pfx sig).foldl (fun acc t => add_term t acc) doc.terms
      apply foldl_add_term_of_subset _ _ (foldl_add_term_sorted _ _ hsort)
      intro t ht
      rw [mem_foldl_add_term]
      exact Or.inl ht
    · funext n
      show (if n = v3 then serialise_double (sig.avgl.getD 2 0)
        else if n = v2 then serialise_double (sig.avgl.getD 1 0)
        else if n = v1 then serialise_double (sig.avgl.getD 0 0)
        else if n = v3 then serialise_double (sig.avgl.getD 2 0)
        else if n = v2 then serialise_double (sig.avgl.getD 1 0)
        else if n = v1 then serialise_double (sig.avgl.getD 0 0)
        else doc.values n) =
        (if n = v3 then serialise_double (sig.avgl.getD 2 0)
        else if n = v2 then serialise_double (sig.avgl.getD 1 0)
        else if n = v1 then serialise_double (sig.avgl.getD 0 0)
        else doc.values n)
      split_ifs <;> rfl

/-- Witness for C7: the order-independence half at two channel-0 collections
`[0, 0]` and `[0]` (duplicate collapse), and the idempotence half at a fresh
empty document with the C6 scenario signature. -/
theorem C7_term_set_semantics_witness :
    make_coeff_terms "P" (ImgSig.mk [0, 0] [] [] []) =
      make_coeff_terms "P" (ImgSig.mk [0] [] [] []) ∧
    AddTerms (imgTermsMk "P" 0 1 2 1 (fun _ _ => 1))
      (AddTerms (imgTermsMk "P" 0 1 2 1 (fun _ _ => 1))
        (Document.mk [] (fun _ => ByteStr.empty))
        (ImgSig.mk [0, 5, -3] [2] [] [1/2, 0, -1/10]))
      (ImgSig.mk [0, 5, -3] [2] [] [1/2, 0, -1/10]) =
    AddTerms (imgTermsMk "P" 0 1 2 1 (fun _ _ => 1))
      (Document.mk [] (fun _ => ByteStr.empty))
      (ImgSig.mk [0, 5, -3] [2] [] [1/2, 0, -1/10]) :=
  ⟨C7_term_set_semantics.1 "P" (ImgSig.mk [0, 0] [] [] []) (ImgSig.mk [0] [] [] [])
      (fun y => by simp) (fun y => Iff.rfl) (fun y => Iff.rfl),
   C7_term_set_semantics.2 "P" 0 1 2 1 (fun _ _ => 1)
      (Document.mk [] (fun _ => ByteStr.empty))
      (ImgSig.mk [0, 5, -3] [2] [] [1/2, 0, -1/10]) List.Pairwise.nil⟩

/-- Claim C9: `AddTerms` mutates only the target document, and there only the
term list (which grows by exactly the signature's coefficient terms) and the
three named value slots: every other value slot is unchanged. The
query-building operations `make_coeff_query`, `make_averages_query` and
`querySimilar` are embedded as pure functions of the `ImgTerms`
configuration and the document (they are `const` methods over a `const`
document reference), so they change neither. -/
theorem C9_addterms_frame (pfx : String) (v1 v2 v3 N : Nat) (fw : Int → Nat → ℚ)
    (doc : Document) (sig : ImgSig) :
    (∀ n, n ≠ v1 → n ≠ v2 → n ≠ v3 →
      (AddTerms (imgTermsMk pfx v1 v2 v3 N fw) doc sig).values n = doc.values n) ∧
    (∀ t, t ∈ (AddTerms (imgTermsMk pfx v1 v2 v3 N fw) doc sig).terms ↔
      t ∈ doc.terms ∨ t ∈ make_coeff_terms pfx sig) := by
  constructor
  · intro n h1 h2 h3
    show (if n = v3 then serialise_double (sig.avgl.getD 2 0)
      else if n = v2 then serialise_double (sig.avgl.getD 1 0)
      else if n = v1 then serialise_double (sig.avgl.getD 0 0)
      else doc.values n) = doc.values n
    rw [if_neg h3, if_neg h2, if_neg h1]
  · intro t
    show t ∈ (make_coeff_terms pfx sig).foldl (fun acc u => add_term u acc) doc.terms ↔ _
    rw [mem_foldl_add_term]
    tauto

/-- Witness for C9 at slot `7` (none of the three configured slots `0, 1, 2`)
and at the foreign term `"A"` already present in the document. -/
theorem C9_addterms_frame_witness :
    (AddTerms (imgTermsMk "P" 0 1 2 1 (fun _ _ => 1))
      (Document.mk ["A"] (fun _ => ByteStr.empty))
      (ImgSig.mk [0, 5, -3] [2] [] [1/2, 0, -1/10])).values 7 =
      (Document.mk ["A"] (fun _ => ByteStr.empty)).values 7 ∧
    ("A" ∈ (AddTerms (imgTermsMk "P" 0 1 2 1 (fun _ _ => 1))
      (Document.mk ["A"] (fun _ => ByteStr.empty))
      (ImgSig.mk [0, 5, -3] [2] [] [1/2, 0, -1/10])).terms ↔
      "A" ∈ (Document.mk ["A"] (fun _ => ByteStr.empty)).terms ∨
      "A" ∈ make_coeff_terms "P" (ImgSig.mk [0, 5, -3] [2] [] [1/2, 0, -1/10])) := by
  obtain ⟨h1, h2⟩ := C9_addterms_frame "P" 0 1 2 1 (fun _ _ => 1)
    (Document.mk ["A"] (fun _ => ByteStr.empty))
    (ImgSig.mk [0, 5, -3] [2] [] [1/2, 0, -1/10])
  exact ⟨h1 7 (by decide) (by decide) (by decide), h2 "A"⟩

/-- Claim C10 (amended): for a document none of whose terms starts with any
of the three channel prefixes, `make_coeff_query` returns the
default-constructed empty query without any error, and — provided the three
stored averages decode, so that the averages subquery is built —
`querySimilar` succeeds and returns the `OP_OR` of that empty query with the
averages subquery. (Without the proviso the original claim fails, as the counterexample
theorem below shows.) -/
theorem C10_empty_coeff_query (pfx : String) (v1 v2 v3 N : Nat) (fw : Int → Nat → ℚ)
    (doc : Document)
    (hterms : ∀ t ∈ doc.terms, ∀ c, c < 3 → startswith t (colourpfx pfx c) = false) :
    make_coeff_query (imgTermsMk pfx v1 v2 v3 N fw) doc = Except.ok Query.empty ∧
    (∀ qa, make_averages_query (imgTermsMk pfx v1 v2 v3 N fw) doc = Except.ok qa →
      querySimilar (imgTermsMk pfx v1 v2 v3 N fw) doc =
        Except.ok (Query.opOr Query.empty qa)) := by
  have hs0 : scanChannel doc.terms (colourpfx pfx 0) = [] :=
    scanChannel_eq_nil (fun t ht => hterms t ht 0 (by norm_num))
  have hs1 : scanChannel doc.terms (colourpfx pfx 1) = [] :=
    scanChannel_eq_nil (fun t ht => hterms t ht 1 (by norm_num))
  have hs2 : scanChannel doc.terms (colourpfx pfx 2) = [] :=
    scanChannel_eq_nil (fun t ht => hterms t ht 2 (by norm_num))
  have hq : make_coeff_query (imgTermsMk pfx v1 v2 v3 N fw) doc = Except.ok Query.empty := by
    rw [make_coeff_query]
    simp only [imgTermsMk]
    rw [hs0, hs1, hs2]
    rfl
  exact ⟨hq, fun qa hqa => querySimilar_of_parts hq hqa⟩

/-- Witness for C10 (amended): a document with the single foreign term
`"Q5"` and three decodable stored averages. -/
theorem C10_empty_coeff_query_witness :
    make_coeff_query (imgTermsMk "P" 0 1 2 1 (fun _ _ => 1))
      (Document.mk ["Q5"] (fun _ => ByteStr.enc 0)) = Except.ok Query.empty ∧
    querySimilar (imgTermsMk "P" 0 1 2 1 (fun _ _ => 1))
      (Document.mk ["Q5"] (fun _ => ByteStr.enc 0)) =
      Except.ok (Query.opOr Query.empty
        (Query.opOr (Query.opOr (Query.opOr Query.empty
          (Query.opScaleWeight (wAt 0 0) (query_for_val_distance
            ((imgTermsMk "P" 0 1 2 1 (fun _ _ => 1)).colour_average_accels.getD 0 default)
            0)))
          (Query.opScaleWeight (wAt 0 1) (query_for_val_distance
            ((imgTermsMk "P" 0 1 2 1 (fun _ _ => 1)).colour_average_accels.getD 1 default)
            0)))
          (Query.opScaleWeight (wAt 0 2) (query_for_val_distance
            ((imgTermsMk "P" 0 1 2 1 (fun _ _ => 1)).colour_average_accels.getD 2 default)
            0)))) := by
  obtain ⟨h1, h2⟩ := C10_empty_coeff_query "P" 0 1 2 1 (fun _ _ => 1)
    (Document.mk ["Q5"] (fun _ => ByteStr.enc 0)) (by decide)
  exact ⟨h1, h2 _ rfl⟩

/-- Claim C10 counterexample: the claim quantifies over **every** document
without channel-prefixed terms, but for the fresh empty document (no terms
and no stored values) `make_coeff_query` does return the empty query, while
`querySimilar` does not succeed: reading the unset average slots yields empty
byte strings whose deserialisation fails, so `querySimilar` raises an
invalid-argument error instead of returning an `OP_OR` query. -/
theorem C10_querySimilar_fails_without_values :
    make_coeff_query (imgTermsMk "P" 0 1 2 1 (fun _ _ => 1))
      (Document.mk [] (fun _ => ByteStr.empty)) = Except.ok Query.empty ∧
    querySimilar (imgTermsMk "P" 0 1 2 1 (fun _ _ => 1))
      (Document.mk [] (fun _ => ByteStr.empty)) =
      Except.error (XError.invalidArgument "Bad serialised double (insufficient data)") :=
  ⟨rfl, rfl⟩

/-- Claim C8: the constructor builds exactly three per-channel range
accelerators with domains `[0, 1)`, `[-0.523, 0.523)` and `[-0.596, 0.596)`
and bucket width `(max - min) / 255`; each width is positive, the 255 buckets
tile the domain exactly (`min + 255 · width = max`), and every in-domain
value falls into exactly one of the 255 buckets (no gaps, no overlaps). -/
theorem C8_accelerator_buckets (pfx : String) (v1 v2 v3 N : Nat) (fw : Int → Nat → ℚ)
    (i : Nat) (hi : i < 3) (q : ℚ)
    (hq1 : ((imgTermsMk pfx v1 v2 v3 N fw).colour_average_accels.getD i default).vmin ≤ q)
    (hq2 : q < ((imgTermsMk pfx v1 v2 v3 N fw).colour_average_accels.getD i default).vmax) :
    (imgTermsMk pfx v1 v2 v3 N fw).colour_average_accels.length = 3 ∧
    ((imgTermsMk pfx v1 v2 v3 N fw).colour_average_accels.getD i default).vmin =
      [0, -523/1000, -596/1000].getD i 0 ∧
    ((imgTermsMk pfx v1 v2 v3 N fw).colour_average_accels.getD i default).vmax =
      [1, 523/1000, 596/1000].getD i 0 ∧
    ((imgTermsMk pfx v1 v2 v3 N fw).colour_average_accels.getD i default).step =
      (((imgTermsMk pfx v1 v2 v3 N fw).colour_average_accels.getD i default).vmax -
       ((imgTermsMk pfx v1 v2 v3 N fw).colour_average_accels.getD i default).vmin) / 255 ∧
    0 < ((imgTermsMk pfx v1 v2 v3 N fw).colour_average_accels.getD i default).step ∧
    ((imgTermsMk pfx v1 v2 v3 N fw).colour_average_accels.getD i default).vmin +
      255 * ((imgTermsMk pfx v1 v2 v3 N fw).colour_average_accels.getD i default).step =
      ((imgTermsMk pfx v1 v2 v3 N fw).colour_average_accels.getD i default).vmax ∧
    ∃! k : Nat, k < 255 ∧
      ((imgTermsMk pfx v1 v2 v3 N fw).colour_average_accels.getD i default).vmin +
        (k : ℚ) * ((imgTermsMk pfx v1 v2 v3 N fw).colour_average_accels.getD i default).step
        ≤ q ∧
      q < ((imgTermsMk pfx v1 v2 v3 N fw).colour_average_accels.getD i default).vmin +
        ((k : ℚ) + 1) *
        ((imgTermsMk pfx v1 v2 v3 N fw).colour_average_accels.getD i default).step := by
  interval_cases i
  · refine ⟨rfl, rfl, rfl, rfl, ?_, ?_, ?_⟩
    · show (0 : ℚ) < (1 - 0) / 255
      norm_num
    · show (0 : ℚ) + 255 * ((1 - 0) / 255) = 1
      norm_num
    · exact @bucket_exists_unique (0 : ℚ) ((1 - 0) / 255) q
        (by norm_num) hq1 (by
          have h2 : q < (1 : ℚ) := hq2
          linarith)
  · refine ⟨rfl, rfl, rfl, rfl, ?_, ?_, ?_⟩
    · show (0 : ℚ) < (523/1000 - (-523/1000)) / 255
      norm_num
    · show (-523/1000 : ℚ) + 255 * ((523/1000 - (-523/1000)) / 255) = 523/1000
      norm_num
    · exact @bucket_exists_unique (-523/1000 : ℚ) ((523/1000 - (-523/1000)) / 255) q
        (by norm_num) hq1 (by
          have h2 : q < (523/1000 : ℚ) := hq2
          linarith)
  · refine ⟨rfl, rfl, rfl, rfl, ?_, ?_, ?_⟩
    · show (0 : ℚ) < (596/1000 - (-596/1000)) / 255
      norm_num
    · show (-596/1000 : ℚ) + 255 * ((596/1000 - (-596/1000)) / 255) = 596/1000
      norm_num
    · exact @bucket_exists_unique (-596/1000 : ℚ) ((596/1000 - (-596/1000)) / 255) q
        (by norm_num) hq1 (by
          have h2 : q < (596/1000 : ℚ) := hq2
          linarith)

/-- Witness for C8 at channel `0` and the in-domain value `q = 0` (the lower
domain edge of the Y accelerator). -/
theorem C8_accelerator_buckets_witness :
    (imgTermsMk "P" 0 1 2 1 (fun _ _ => 1)).colour_average_accels.length = 3 ∧
    ((imgTermsMk "P" 0 1 2 1 (fun _ _ => 1)).colour_average_accels.getD 0 default).vmin =
      [0, -523/1000, -596/1000].getD 0 0 ∧
    ((imgTermsMk "P" 0 1 2 1 (fun _ _ => 1)).colour_average_accels.getD 0 default).vmax =
      [1, 523/1000, 596/1000].getD 0 0 ∧
    ((imgTermsMk "P" 0 1 2 1 (fun _ _ => 1)).colour_average_accels.getD 0 default).step =
      (((imgTermsMk "P" 0 1 2 1 (fun _ _ => 1)).colour_average_accels.getD 0 default).vmax -
       ((imgTermsMk "P" 0 1 2 1 (fun _ _ => 1)).colour_average_accels.getD 0 default).vmin)
        / 255 ∧
    0 < ((imgTermsMk "P" 0 1 2 1 (fun _ _ => 1)).colour_average_accels.getD 0 default).step ∧
    ((imgTermsMk "P" 0 1 2 1 (fun _ _ => 1)).colour_average_accels.getD 0 default).vmin +
      255 * ((imgTermsMk "P" 0 1 2 1
        (fun _ _ => 1)).colour_average_accels.getD 0 default).step =
      ((imgTermsMk "P" 0 1 2 1 (fun _ _ => 1)).colour_average_accels.getD 0 default).vmax ∧
    ∃! k : Nat, k < 255 ∧
      ((imgTermsMk "P" 0 1 2 1 (fun _ _ => 1)).colour_average_accels.getD 0 default).vmin +
        (k : ℚ) * ((imgTermsMk "P" 0 1 2 1
          (fun _ _ => 1)).colour_average_accels.getD 0 default).step ≤ 0 ∧
      (0 : ℚ) < ((imgTermsMk "P" 0 1 2 1
          (fun _ _ => 1)).colour_average_accels.getD 0 default).vmin +
        ((k : ℚ) + 1) * ((imgTermsMk "P" 0 1 2 1
          (fun _ _ => 1)).colour_average_accels.getD 0 default).step :=
  C8_accelerator_buckets "P" 0 1 2 1 (fun _ _ => 1) 0 (by decide) 0
    (le_refl 0) zero_lt_one

end ImgSeek
